import Mathlib

/-!
Verification of the content-based analysis / filename-synthesis / rename engine
of `src/app.py` (class `PDFManager`): `analyze_pdf_content`,
`generate_filename_from_content` and `rename_pdf_from_content`.

Python strings are modelled as `List Char` (`PyStr`).  All inputs handled by
the claims are ASCII, so Python's Unicode-aware primitives (`str.lower`,
`str.strip`, `\s`, `\w`, `\d`) are modelled at their ASCII behaviour, which
coincides with the Python behaviour on every input considered here.

External collaborators (the PyMuPDF text extractor, the optional spaCy
recognizer, the `dateutil` fuzzy parser, and the filesystem `os` calls) are
modelled at their interface boundary; each such model carries a doc comment
saying what it stands for.
-/

set_option maxRecDepth 10000

abbrev PyStr := List Char

/-- Convert a Lean string literal to the `List Char` model of Python strings. -/
def pys (s : String) : PyStr := s.data

/-! ## ASCII character classes (Python `str` predicates and `re` classes) -/

/-- Python `str.lower()` / `re.IGNORECASE` folding, ASCII range. -/
def lowerChar (c : Char) : Char :=
  if 'A' ≤ c ∧ c ≤ 'Z' then Char.ofNat (c.toNat + 32) else c

/-- Python `str.lower()` on a whole string (ASCII). -/
def lowerStr (s : PyStr) : PyStr := s.map lowerChar

/-- Python `str.upper()` folding, ASCII range (used for `org.upper()`). -/
def upperChar (c : Char) : Char :=
  if 'a' ≤ c ∧ c ≤ 'z' then Char.ofNat (c.toNat - 32) else c

/-- Python `str.upper()` on a whole string (ASCII). -/
def upperStr (s : PyStr) : PyStr := s.map upperChar

/-- ASCII decimal digit, the `\d` class of Python `re` on ASCII text. -/
def isDigitChar (c : Char) : Bool := '0' ≤ c ∧ c ≤ '9'

/-- ASCII letter, the `[a-zA-Z]` class (and `[a-z]` under `re.IGNORECASE`). -/
def isAsciiAlpha (c : Char) : Bool := ('a' ≤ c ∧ c ≤ 'z') ∨ ('A' ≤ c ∧ c ≤ 'Z')

/-- Python whitespace (`str.strip`, `str.split()`, and the `\s` class):
space, tab, newline, carriage return, form feed, vertical tab. -/
def isPySpace (c : Char) : Bool :=
  c = ' ' ∨ c = '\t' ∨ c = '\n' ∨ c = '\r' ∨ c = Char.ofNat 12 ∨ c = Char.ofNat 11

/-- The `\w` word-character class of Python `re` on ASCII text:
letters, digits and underscore.  Also Python `str.isalnum()` together
with `_`-exclusion where needed. -/
def isWordChar (c : Char) : Bool := isAsciiAlpha c ∨ isDigitChar c ∨ c = '_'

/-- Python `str.isalnum()` on ASCII text. -/
def isAlnumChar (c : Char) : Bool := isAsciiAlpha c ∨ isDigitChar c

/-! ## Python string operations -/

/-- Python `str.strip()`: drop leading and trailing whitespace. -/
def pyStrip (s : PyStr) : PyStr :=
  ((s.dropWhile isPySpace).reverse.dropWhile isPySpace).reverse

/-- `startsWithL p s`: `s` begins with `p` (exact character equality). -/
def startsWithL : PyStr → PyStr → Bool
  | [], _ => true
  | _ :: _, [] => false
  | a :: as, b :: bs => a = b && startsWithL as bs

/-- Python's substring test `p in s` for strings: `p` occurs contiguously
in `s`.  (`"" in s` is `True` in Python, matched here.) -/
def containsSub (p : PyStr) : PyStr → Bool
  | [] => p.isEmpty
  | s@(_ :: rest) => startsWithL p s || containsSub p rest

/-- Python `str.count(c)` for a single character. -/
def countChar (c : Char) (s : PyStr) : Nat := (s.filter (· = c)).length

/-- Python `str.split(sep)` for a one-character separator: keeps empty
fields (`"a__b".split('_') == ['a','','b']`). -/
def splitOnChar (sep : Char) (s : PyStr) : List PyStr :=
  match s with
  | [] => [[]]
  | c :: rest =>
    let r := splitOnChar sep rest
    if c = sep then [] :: r
    else match r with
      | [] => [[c]]
      | f :: fs => (c :: f) :: fs

/-- Python `str.split()` with no argument: split on whitespace runs,
dropping empty fields. -/
def splitWs (s : PyStr) : List PyStr :=
  match s with
  | [] => []
  | c :: rest =>
    if isPySpace c then splitWs rest
    else
      match splitWs rest with
      | [] => [[c]]
      | f :: fs =>
        match rest with
        | [] => [[c]]
        | d :: _ => if isPySpace d then [c] :: f :: fs else (c :: f) :: fs

/-- `re.sub(r'\s+', ' ', s)`: collapse every maximal whitespace run to a
single space.  The Boolean records whether the previous character was
part of a whitespace run. -/
def collapseWsGo : PyStr → Bool → PyStr
  | [], _ => []
  | c :: rest, inRun =>
    if isPySpace c then
      if inRun then collapseWsGo rest true else ' ' :: collapseWsGo rest true
    else c :: collapseWsGo rest false

def collapseWs (s : PyStr) : PyStr := collapseWsGo s false

/-- Python `str.replace(old, "")` for a single character: remove every
occurrence. -/
def removeChar (c : Char) (s : PyStr) : PyStr := s.filter (· ≠ c)

/-- Python `str.replace(a, b)` for single characters. -/
def replaceChar (a b : Char) (s : PyStr) : PyStr :=
  s.map (fun c => if c = a then b else c)

/-- Python `str.replace(pat, "")` for a multi-character pattern: delete
non-overlapping occurrences left to right.  Fuel-driven (the fuel
`s.length + 1` always suffices because each step consumes at least one
character). -/
def removeSubGo (pat : PyStr) : Nat → PyStr → PyStr
  | 0, s => s
  | _ + 1, [] => []
  | fuel + 1, s@(c :: rest) =>
    if startsWithL pat s ∧ pat ≠ [] then removeSubGo pat fuel (s.drop pat.length)
    else c :: removeSubGo pat fuel rest

def removeSub (pat s : PyStr) : PyStr := removeSubGo pat (s.length + 1) s

/-! ## Regex scanners

Each `re` pattern used by `analyze_pdf_content` is embedded as a dedicated
scanner over `List Char`.  A matcher `matchX : PyStr → Option (PyStr × PyStr)`
takes the text at a candidate start position and returns the matched slice
(original characters, as `re.findall` returns them) and the rest, trying
quantifier alternatives in the greedy order the `re` engine uses.  All
patterns here begin with `\b` followed by a word character, so the scanner
attempts a match only at positions with a word boundary. -/

/-- Exactly `n` ASCII digits. -/
def takeExactDigits : Nat → PyStr → Option (PyStr × PyStr)
  | 0, cs => some ([], cs)
  | _ + 1, [] => none
  | n + 1, c :: cs =>
    if isDigitChar c then (takeExactDigits n cs).map (fun p => (c :: p.1, p.2))
    else none

/-- A separator character, `'-'` or `'/'`. -/
def trySep : PyStr → Option (Char × PyStr)
  | [] => none
  | c :: cs => if c = '-' ∨ c = '/' then some (c, cs) else none

/-- First success over a list of alternatives (regex alternation /
backtracking order). -/
def tryList {β α} (xs : List β) (f : β → Option α) : Option α :=
  (xs.filterMap f).head?

/-- `\b` immediately after a match ending in a word character: end of text
or a non-word character next. -/
def boundaryAfter : PyStr → Bool
  | [] => true
  | c :: _ => ¬ isWordChar c

/-- Case-insensitive literal match (a literal alternative under
`re.IGNORECASE`); returns the consumed original-case slice. -/
def matchCI : PyStr → PyStr → Option (PyStr × PyStr)
  | [], cs => some ([], cs)
  | _ :: _, [] => none
  | p :: ps, c :: cs =>
    if lowerChar p = lowerChar c then (matchCI ps cs).map (fun q => (c :: q.1, q.2))
    else none

/-- `re.findall` driver: scan left to right, at each word-boundary position
try `m`; on a match, record the slice and resume after it (non-overlapping
matches), else advance one character.  `prev` is the character before the
current position (for the `\b` test).  Fuel `text.length + 1` suffices:
every step consumes at least one character. -/
def findallGo (m : PyStr → Option (PyStr × PyStr)) : Nat → Option Char → PyStr → List PyStr
  | 0, _, _ => []
  | _ + 1, _, [] => []
  | fuel + 1, prev, c :: rest =>
    let boundary : Bool := isWordChar c && (match prev with | some p => ! isWordChar p | none => true)
    if boundary then
      match m (c :: rest) with
      | some (mt, rest') =>
        mt :: findallGo m fuel (mt.getLast? <|> prev) rest'
      | none => findallGo m fuel (some c) rest
    else findallGo m fuel (some c) rest

def findall (m : PyStr → Option (PyStr × PyStr)) (text : PyStr) : List PyStr :=
  findallGo m (text.length + 1) none text

/-- Pattern 1 of `date_patterns`: day and month as 1-2 digits, year as 2-4
digits, separated by hyphen or slash (`MM/DD/YYYY` or `MM-DD-YYYY`);
greedy quantifier order `{2,1}` / `{2,1}` / `{4,3,2}`, word boundaries at
both ends. -/
def matchDate1 (cs : PyStr) : Option (PyStr × PyStr) :=
  tryList [2, 1] fun l1 =>
    (takeExactDigits l1 cs).bind fun (d1, r1) =>
    (trySep r1).bind fun (s1, r2) =>
    tryList [2, 1] fun l2 =>
      (takeExactDigits l2 r2).bind fun (d2, r3) =>
      (trySep r3).bind fun (s2, r4) =>
      tryList [4, 3, 2] fun l3 =>
        (takeExactDigits l3 r4).bind fun (d3, r5) =>
        if boundaryAfter r5 then some (d1 ++ s1 :: d2 ++ s2 :: d3, r5) else none

/-- Pattern 2 of `date_patterns`: 4-digit year, then 1-2 digit month and
day, separated by hyphen or slash (`YYYY-MM-DD`), word boundaries at both
ends. -/
def matchDate2 (cs : PyStr) : Option (PyStr × PyStr) :=
  (takeExactDigits 4 cs).bind fun (d1, r1) =>
  (trySep r1).bind fun (s1, r2) =>
  tryList [2, 1] fun l2 =>
    (takeExactDigits l2 r2).bind fun (d2, r3) =>
    (trySep r3).bind fun (s2, r4) =>
    tryList [2, 1] fun l3 =>
      (takeExactDigits l3 r4).bind fun (d3, r5) =>
      if boundaryAfter r5 then some (d1 ++ s1 :: d2 ++ s2 :: d3, r5) else none

def monthAbbrevs : List PyStr :=
  [pys "Jan", pys "Feb", pys "Mar", pys "Apr", pys "May", pys "Jun",
   pys "Jul", pys "Aug", pys "Sep", pys "Oct", pys "Nov", pys "Dec"]

def monthFullNames : List PyStr :=
  [pys "January", pys "February", pys "March", pys "April", pys "May",
   pys "June", pys "July", pys "August", pys "September", pys "October",
   pys "November", pys "December"]

/-- Pattern `\b(?:Jan|…|Dec)[a-z]* \d{1,2},? \d{4}\b` with `re.IGNORECASE`
(`Month DD, YYYY`).  After `[a-z]*` the pattern requires a space, so the
greedy letter run never backtracks usefully and is taken maximal. -/
def matchDate3 (cs : PyStr) : Option (PyStr × PyStr) :=
  tryList monthAbbrevs fun ab =>
    (matchCI ab cs).bind fun (m1, r1) =>
    let letters := r1.takeWhile isAsciiAlpha
    let r2 := r1.dropWhile isAsciiAlpha
    match r2 with
    | ' ' :: r3 =>
      (tryList [2, 1] fun l =>
        (takeExactDigits l r3).bind fun (day, r4) =>
        let withComma : Option (PyStr × PyStr) :=
          match r4 with
          | ',' :: ' ' :: r5 =>
            (takeExactDigits 4 r5).bind fun (yr, r6) =>
            if boundaryAfter r6 then some ([','] ++ [' '] ++ yr, r6) else none
          | _ => none
        let noComma : Option (PyStr × PyStr) :=
          match r4 with
          | ' ' :: r5 =>
            (takeExactDigits 4 r5).bind fun (yr, r6) =>
            if boundaryAfter r6 then some ([' '] ++ yr, r6) else none
          | _ => none
        (withComma <|> noComma).map fun (tailPart, rest') =>
          (m1 ++ letters ++ ' ' :: day ++ tailPart, rest'))
    | _ => none

/-- Pattern `\b\d{1,2} (?:January|…|December) \d{4}\b` with `re.IGNORECASE`
(`DD Month YYYY`). -/
def matchDate4 (cs : PyStr) : Option (PyStr × PyStr) :=
  tryList [2, 1] fun l =>
    (takeExactDigits l cs).bind fun (day, r1) =>
    match r1 with
    | ' ' :: r2 =>
      tryList monthFullNames fun mn =>
        (matchCI mn r2).bind fun (m1, r3) =>
        match r3 with
        | ' ' :: r4 =>
          (takeExactDigits 4 r4).bind fun (yr, r5) =>
          if boundaryAfter r5 then some (day ++ ' ' :: m1 ++ ' ' :: yr, r5) else none
        | _ => none
    | _ => none

/-- An alternation `\b(?:lit₁|lit₂|…)\b` of literal provider names under
`re.IGNORECASE` (all literals start and end with word characters). -/
def matchWordAlts (alts : List PyStr) (cs : PyStr) : Option (PyStr × PyStr) :=
  tryList alts fun alt =>
    (matchCI alt cs).bind fun (m1, rest) =>
    if boundaryAfter rest then some (m1, rest) else none

/-! ## Address and gibberish pattern searches -/

/-- One street-address attempt at a fixed position, for the regexes of the
shape `\d+\s+(?:dir)?\s*\w+\s+(?:street-type)` used at lines 564 and
588-589 of `src/app.py` (no anchors, no word boundaries, `re.IGNORECASE`).
Only existence of a match matters (`re.search`), so each greedy run is
taken maximal: after `\d+` comes `\s+` (a shorter digit run would leave a
digit where whitespace is required), after `\s+`/`\s*` come alternatives
starting with letters, and after `\w+` comes `\s+` again, so maximal runs
lose no matches.  The optional directional group contributes one branch
per matching alternative plus the empty branch. -/
def matchAddrAt (dirAlts streetAlts : List PyStr) (cs : PyStr) : Bool :=
  let ds := cs.takeWhile isDigitChar
  let r1 := cs.dropWhile isDigitChar
  ds ≠ [] &&
    (let ws := r1.takeWhile isPySpace
     let r2 := r1.dropWhile isPySpace
     ws ≠ [] &&
       ((r2 :: dirAlts.filterMap (fun dd => (matchCI dd r2).map (·.2))).any fun r3 =>
         let r4 := r3.dropWhile isPySpace
         let w := r4.takeWhile isWordChar
         let r5 := r4.dropWhile isWordChar
         w ≠ [] &&
           (let ws2 := r5.takeWhile isPySpace
            let r6 := r5.dropWhile isPySpace
            ws2 ≠ [] && streetAlts.any fun st => (matchCI st r6).isSome)))

/-- `re.search` for the street-address regexes: a match may start at any
position. -/
def searchAddr (dirAlts streetAlts : List PyStr) (cs : PyStr) : Bool :=
  cs.tails.any (matchAddrAt dirAlts streetAlts)

/-- The directional / street-type alternatives of the address regex inside
the spaCy branch (line 564 of `src/app.py`). -/
def dirAlts564 : List PyStr :=
  [pys "W.", pys "E.", pys "N.", pys "S.", pys "West", pys "East",
   pys "North", pys "South"]

def streetAlts564 : List PyStr :=
  [pys "St.", pys "Street", pys "Ave.", pys "Avenue", pys "Rd.", pys "Road",
   pys "Blvd.", pys "Boulevard", pys "Dr.", pys "Drive", pys "Lane",
   pys "Ln.", pys "Way"]

/-- The directional / street-type alternatives of the post-processing
address regex (lines 588-589 of `src/app.py`). -/
def dirAlts589 : List PyStr :=
  [pys "W.", pys "E.", pys "N.", pys "S.", pys "WEST", pys "EAST",
   pys "NORTH", pys "SOUTH"]

def streetAlts589 : List PyStr :=
  [pys "ST.", pys "STREET", pys "AVE.", pys "AVENUE", pys "RD.", pys "ROAD",
   pys "BLVD.", pys "BOULEVARD", pys "DR.", pys "DRIVE", pys "LANE",
   pys "LN.", pys "WAY", pys "COURT", pys "CT.", pys "PLACE", pys "PL."]

/-- Does one of the (all-letter) words match at this position
(case-insensitively)? -/
def streetWordAt (words : List PyStr) (cs : PyStr) : Bool :=
  words.any fun w => (matchCI w cs).isSome

/-- `re.search(r'\d+.*(?:SUMMIT|STREET|AVENUE|ROAD)', s)` (line 605 of
`src/app.py`): some digit is followed, later in the same line (`.` does
not match a newline), by one of the words.  The flag records whether a
digit has been seen in the current newline-free stretch. -/
def searchDigitsStreetGo (words : List PyStr) : PyStr → Bool → Bool
  | [], _ => false
  | c :: rest, haveDigit =>
    if haveDigit && streetWordAt words (c :: rest) then true
    else if c = '\n' then searchDigitsStreetGo words rest false
    else if isDigitChar c then searchDigitsStreetGo words rest true
    else searchDigitsStreetGo words rest haveDigit

def searchDigitsStreet (cs : PyStr) : Bool :=
  searchDigitsStreetGo [pys "SUMMIT", pys "STREET", pys "AVENUE", pys "ROAD"] cs false

/-- Counts the groups of `re.match(r'^[a-zA-Z](_[a-zA-Z]){3,}$', org)`
(line 620 of `src/app.py`): after the leading letter, the rest of the
string must be a sequence of `_letter` groups reaching the end; `none`
when the shape is broken.  (Python's `$` would also accept one trailing
newline; no candidate relevant here ends in a newline.) -/
def altGroupsCount : PyStr → Option Nat
  | [] => some 0
  | '_' :: c :: rest =>
    if isAsciiAlpha c then (altGroupsCount rest).map (· + 1) else none
  | _ => none

def matchAlternating (cs : PyStr) : Bool :=
  match cs with
  | [] => false
  | c :: rest =>
    isAsciiAlpha c && (match altGroupsCount rest with
                       | some n => decide (3 ≤ n)
                       | none => false)

/-! ## Model of the `dateutil` fuzzy parser

`analyze_pdf_content` feeds every regex match to
`date_parser.parse(match, fuzzy=True)` and formats the result with
`strftime("%Y-%m-%d")`; parse failures are swallowed.  `dateutil` is an
external library; it is modelled here on exactly the shapes the four date
regexes can produce: numeric triples and month-name forms.  Two-digit
years use `dateutil`'s century logic anchored at a fixed current year
(2026).  On shapes outside this range (e.g. a month prefix with trailing
junk such as "Janu 3, 2024", where real `dateutil` falls back to fields of
the current date) the model returns `none`; no claim depends on such
inputs. -/

def digitsToNat (ds : PyStr) : Nat := ds.foldl (fun a c => a * 10 + (c.toNat - 48)) 0

def isLeapYear (y : Nat) : Bool := y % 4 = 0 && (y % 100 ≠ 0 || y % 400 = 0)

def daysInMonth (y m : Nat) : Nat :=
  if m = 2 then (if isLeapYear y then 29 else 28)
  else if m = 4 ∨ m = 6 ∨ m = 9 ∨ m = 11 then 30 else 31

/-- The fixed "current year" used for `dateutil`'s two-digit-year century
rule (the library uses the wall clock; the model pins it). -/
def dateutilAnchorYear : Nat := 2026

def convertTwoDigitYear (v : Nat) : Nat :=
  let y := 2000 + v
  if dateutilAnchorYear + 50 ≤ y then y - 100
  else if y + 50 ≤ dateutilAnchorYear then y + 100
  else y

def padNat (width n : Nat) : PyStr :=
  let ds := Nat.toDigits 10 n
  List.replicate (width - ds.length) '0' ++ ds

/-- `strftime("%Y-%m-%d")`. -/
def formatDate (y m d : Nat) : PyStr :=
  padNat 4 y ++ '-' :: padNat 2 m ++ '-' :: padNat 2 d

/-- Validity as enforced by `datetime`: year ≥ 1, month 1-12, day within
the month.  Invalid components make `dateutil` raise, which the source
swallows (`except: pass`). -/
def mkDate (y m d : Nat) : Option PyStr :=
  if 1 ≤ y ∧ 1 ≤ m ∧ m ≤ 12 ∧ 1 ≤ d ∧ d ≤ daysInMonth y m then
    some (formatDate y m d)
  else none

/-- Month names and abbreviations recognized by `dateutil`'s parserinfo. -/
def monthNameTable : List (PyStr × Nat) :=
  [(pys "jan", 1), (pys "january", 1), (pys "feb", 2), (pys "february", 2),
   (pys "mar", 3), (pys "march", 3), (pys "apr", 4), (pys "april", 4),
   (pys "may", 5), (pys "jun", 6), (pys "june", 6), (pys "jul", 7),
   (pys "july", 7), (pys "aug", 8), (pys "august", 8), (pys "sep", 9),
   (pys "sept", 9), (pys "september", 9), (pys "oct", 10), (pys "october", 10),
   (pys "nov", 11), (pys "november", 11), (pys "dec", 12), (pys "december", 12)]

def monthFromName (w : PyStr) : Option Nat :=
  (monthNameTable.find? (fun e => e.1 = lowerStr w)).map (·.2)

/-- Resolution of a numeric triple `n1 sep n2 sep n3` as `dateutil` does
with default `dayfirst=False`: a leading 3-4 digit number is the year
(then month before day, swapped when out of range); otherwise the last
number is the year (2-digit values get the century rule) and the first
two are month then day, swapped when the first exceeds 12. -/
def numericDate (n1 n2 n3 : PyStr) : Option PyStr :=
  let v1 := digitsToNat n1
  let v2 := digitsToNat n2
  let v3 := digitsToNat n3
  if 3 ≤ n1.length then
    let md := if v2 ≤ 12 then (v2, v3) else (v3, v2)
    mkDate v1 md.1 md.2
  else
    let y := if 3 ≤ n3.length then v3 else convertTwoDigitYear v3
    let md := if v1 ≤ 12 then (v1, v2) else (v2, v1)
    mkDate y md.1 md.2

/-- `date_parser.parse(match, fuzzy=True)` followed by
`strftime("%Y-%m-%d")`, on the shapes producible by the four date
regexes; `none` models a raised parse error. -/
def parseDateModel (cs : PyStr) : Option PyStr :=
  match cs.head? with
  | none => none
  | some c0 =>
    if isDigitChar c0 then
      let n1 := cs.takeWhile isDigitChar
      let r1 := cs.dropWhile isDigitChar
      match r1 with
      | sep :: r2 =>
        if sep = '-' ∨ sep = '/' then
          let n2 := r2.takeWhile isDigitChar
          let r3 := r2.dropWhile isDigitChar
          match r3 with
          | sep2 :: r4 =>
            if sep2 = '-' ∨ sep2 = '/' then
              let n3 := r4.takeWhile isDigitChar
              let r5 := r4.dropWhile isDigitChar
              if n2 ≠ [] ∧ n3 ≠ [] ∧ r5 = [] then numericDate n1 n2 n3 else none
            else none
          | [] => none
        else if sep = ' ' then
          -- `DD Month YYYY`
          let w := r2.takeWhile isAsciiAlpha
          let r3 := r2.dropWhile isAsciiAlpha
          match monthFromName w, r3 with
          | some m, ' ' :: r4 =>
            let y4 := r4.takeWhile isDigitChar
            let r5 := r4.dropWhile isDigitChar
            if y4.length = 4 ∧ r5 = [] then mkDate (digitsToNat y4) m (digitsToNat n1)
            else none
          | _, _ => none
        else none
      | [] => none
    else if isAsciiAlpha c0 then
      -- `Month DD, YYYY`
      let w := cs.takeWhile isAsciiAlpha
      let r1 := cs.dropWhile isAsciiAlpha
      match monthFromName w, r1 with
      | some m, ' ' :: r2 =>
        let d := r2.takeWhile isDigitChar
        let r3 := r2.dropWhile isDigitChar
        let afterComma : Option PyStr :=
          match r3 with
          | ',' :: ' ' :: r4 => some r4
          | ' ' :: r4 => some r4
          | _ => none
        match afterComma with
        | some r4 =>
          let y4 := r4.takeWhile isDigitChar
          let r5 := r4.dropWhile isDigitChar
          if d ≠ [] ∧ y4.length = 4 ∧ r5 = [] then
            mkDate (digitsToNat y4) m (digitsToNat d)
          else none
        | none => none
      | _, _ => none
    else none

/-! ## Organization validity filter (post-processing, lines 586-650) -/

/-- Rule: the post-processing address regex matches `org.upper()`. -/
def addrRuleHit (org_upper : PyStr) : Bool :=
  searchAddr dirAlts589 streetAlts589 org_upper

/-- Rule: digits followed by a known capitalized street word
(`\d+.*(?:SUMMIT|STREET|AVENUE|ROAD)` on `org.upper()`). -/
def digitsStreetHit (org_upper : PyStr) : Bool := searchDigitsStreet org_upper

/-- Rule 1: splitting on `_` (after turning `-` into `_`) yields more than
3 segments of which more than half are single characters.
(`single > len * 0.5` on ints and the exact float `0.5` is `2*single > len`.) -/
def singleCharSegmentsHit (org : PyStr) : Bool :=
  let segments := splitOnChar '_' (replaceChar '-' '_' org)
  let single := (segments.filter (fun s => s.length = 1)).length
  decide (3 < segments.length) && decide (segments.length < 2 * single)

/-- Rule 2: more than 3 underscores or more than 3 hyphens. -/
def tooManySeparatorsHit (org : PyStr) : Bool :=
  decide (3 < countChar '_' org) || decide (3 < countChar '-' org)

/-- Rule 4: after removing `_`, `-` and spaces, the most frequent character
(case-insensitive) occurs in more than 40% of the remaining positions.
`max/len > 0.4` in Python floats agrees exactly with the rational
comparison `5*max > 2*len` at every integer pair arising here. -/
def charRepetitionHit (org : PyStr) : Bool :=
  let org_clean := removeChar ' ' (removeChar '-' (removeChar '_' org))
  let lc := lowerStr org_clean
  let maxCount := (lc.map (fun c => countChar c lc)).foldl max 0
  decide (org_clean.length ≠ 0) && decide (2 * org_clean.length < 5 * maxCount)

/-- Rule 5: fewer than 3 characters after removing `_`/`-` and stripping
edge whitespace. -/
def tooShortHit (org : PyStr) : Bool :=
  decide ((pyStrip (removeChar '-' (removeChar '_' org))).length < 3)

/-- Rule 6: fewer than half of the raw characters are alphanumeric
(`alpha/len < 0.5` is exactly `2*alpha < len`). -/
def mostlyNonAlnumHit (org : PyStr) : Bool :=
  let alpha := (org.filter isAlnumChar).length
  decide (0 < org.length) && decide (2 * alpha < org.length)

/-- Rule 7: more than 2 whitespace-separated words (after `_`/`-` become
spaces) of which more than 60% are single letters (`single > len * 0.6`
in Python floats agrees exactly with `5*single > 3*len` at every integer
pair). -/
def singleLetterWordsHit (org : PyStr) : Bool :=
  let words := splitWs (replaceChar '-' ' ' (replaceChar '_' ' ' org))
  let single := (words.filter (fun w => w.length = 1)).length
  decide (2 < words.length) && decide (3 * words.length < 5 * single)

/-- The `is_invalid` disjunction of the post-processing loop, in source
order. -/
def isInvalidOrg (org : PyStr) : Bool :=
  addrRuleHit (upperStr org) || digitsStreetHit (upperStr org) ||
  singleCharSegmentsHit org || tooManySeparatorsHit org ||
  matchAlternating org || charRepetitionHit org || tooShortHit org ||
  mostlyNonAlnumHit org || singleLetterWordsHit org

/-- The post-processing loop: keep candidates with `not is_invalid`, in
order (`filtered_orgs`). -/
def organizationsFilter (orgs : List PyStr) : List PyStr :=
  orgs.filter (fun o => ! isInvalidOrg o)

/-! ## Name whitelist, entity loop, provider fallback -/

/-- The hardcoded whitelist `allowed_names` (lines 548 and 653). -/
def allowed_names : List PyStr :=
  [pys "Mark", pys "Christine", pys "Mark & Christine", pys "Mackenzie",
   pys "Morgan"]

/-- The whitelist test of the ent loop (line 554/557): a whitelist entry
matches a PERSON span when its lowercase form is a substring of the
span's lowercase form. -/
def nameMatchesFirst (name al : PyStr) : Bool :=
  containsSub (lowerStr al) (lowerStr name)

/-- The whitelist test of the re-filter (line 658): exact case-insensitive
equality or case-insensitive substring containment. -/
def nameMatchesSecond (name al : PyStr) : Bool :=
  decide (lowerStr name = lowerStr al) || containsSub (lowerStr al) (lowerStr name)

/-- The `for ent in doc.ents` loop (lines 550-566): PERSON spans feed the
whitelisted-name accumulator, ORG/PRODUCT/FAC spans feed the organization
pool (dropping short, duplicate, or address-like spans per the line-564
regex). -/
def entLoop : List (PyStr × PyStr) → List PyStr × List PyStr → List PyStr × List PyStr
  | [], acc => acc
  | (t, lab) :: rest, (names, orgs) =>
    if lab = pys "PERSON" then
      let name := pyStrip t
      let names' :=
        if name ≠ [] then
          match allowed_names.find? (nameMatchesFirst name) with
          | some al => if names.contains al then names else names ++ [al]
          | none => names
        else names
      entLoop rest (names', orgs)
    else if lab = pys "ORG" ∨ lab = pys "PRODUCT" ∨ lab = pys "FAC" then
      let org := pyStrip t
      let isAddr := searchAddr dirAlts564 streetAlts564 org
      let orgs' :=
        if org ≠ [] ∧ 2 < org.length ∧ ¬ orgs.contains org ∧ ¬ isAddr then
          orgs ++ [org]
        else orgs
      entLoop rest (names, orgs')
    else entLoop rest (names, orgs)

/-- The `common_providers` fallback table (lines 571-578), one alternation
per sector. -/
def providerPatterns : List (List PyStr) :=
  [[pys "Verizon", pys "AT&T", pys "T-Mobile", pys "Sprint", pys "Comcast",
    pys "Xfinity", pys "Cox", pys "Spectrum"],
   [pys "Amazon", pys "Microsoft", pys "Google", pys "Apple", pys "Facebook",
    pys "Meta", pys "Netflix"],
   [pys "Bank of America", pys "Wells Fargo", pys "Chase", pys "Citibank",
    pys "Capital One", pys "US Bank"],
   [pys "Kaiser", pys "Blue Cross", pys "Blue Shield", pys "Aetna",
    pys "United Healthcare", pys "Cigna", pys "Humana"],
   [pys "PG&E", pys "Edison", pys "Duke Energy", pys "ConEd",
    pys "National Grid"],
   [pys "State Farm", pys "Geico", pys "Progressive", pys "Allstate",
    pys "Farmers"]]

/-- The provider fallback loop (lines 580-584): each `re.findall` match is
appended verbatim to the organization pool unless that exact string is
already present. -/
def addProviderMatches (text : PyStr) (orgs0 : List PyStr) : List PyStr :=
  providerPatterns.foldl (fun acc alts =>
    (findall (matchWordAlts alts) text).foldl (fun acc2 m =>
      if acc2.contains m then acc2 else acc2 ++ [m]) acc) orgs0

/-! ## Date extraction (lines 520-538 and 665-666) -/

/-- All matches of the four date patterns, in pattern order. -/
def dateMatches (text : PyStr) : List PyStr :=
  findall matchDate1 text ++ findall matchDate2 text ++
  findall matchDate3 text ++ findall matchDate4 text

/-- The date loop: parse each match, drop failures, append the normalized
string if not already present. -/
def collectDates (text : PyStr) : List PyStr :=
  (dateMatches text).foldl (fun acc m =>
    match parseDateModel m with
    | some d => if acc.contains d then acc else acc ++ [d]
    | none => acc) []

/-- Lexicographic string comparison by code point, Python `str` order. -/
def strLe : PyStr → PyStr → Bool
  | [], _ => true
  | _ :: _, [] => false
  | a :: as, b :: bs => if a < b then true else if b < a then false else strLe as bs

/-- Insert into an already `le`-sorted list (before the first element `y`
with `le x y`). -/
def insertLe (le : PyStr → PyStr → Bool) (x : PyStr) : List PyStr → List PyStr
  | [] => [x]
  | y :: ys => if le x y then x :: y :: ys else y :: insertLe le x ys

def insertionSort (le : PyStr → PyStr → Bool) : List PyStr → List PyStr
  | [] => []
  | x :: xs => insertLe le x (insertionSort le xs)

/-- `result["dates"].sort(reverse=True)`: descending sort by string order.
The source's `list.sort` is a stable mergesort; the list being sorted is
duplicate-free (each date was appended only when absent), and over the
total, antisymmetric string order a sort of a duplicate-free list is
unique, so this structural insertion sort computes the same list. -/
def sortDatesDesc (l : List PyStr) : List PyStr := insertionSort (fun a b => strLe b a) l

/-! ## `analyze_pdf_content` -/

structure Analysis where
  dates : List PyStr
  names : List PyStr
  organizations : List PyStr
  suggested_name : Option PyStr := none
  deriving Repr, DecidableEq

/-- The spaCy pipeline modelled at its interface: `some f` is a loaded
`en_core_web_sm` model producing `(text, label)` spans; `none` covers both
`SPACY_AVAILABLE == False` and a load/run exception (the `except` branch
only logs).  The source truncates the input to its first 10000
characters. -/
def Recognizer := PyStr → List (PyStr × PyStr)

/-- One step of the whitelist re-filter loop (lines 655-661). -/
def spStep (acc : List PyStr) (name : PyStr) : List PyStr :=
  match allowed_names.find? (nameMatchesSecond name) with
  | some al => if acc.contains al then acc else acc ++ [al]
  | none => acc

/-- The whitelist re-filter over `result["names"]` (lines 652-663). -/
def namesSecondPass (names : List PyStr) : List PyStr :=
  names.foldl spStep []

/-- The body of `analyze_pdf_content` on already-extracted non-empty text. -/
def analyzeText (recognizer : Option Recognizer) (text : PyStr) : Analysis :=
  let dates := collectDates text
  let ents := match recognizer with
    | some f => f (text.take 10000)
    | none => []
  let acc := entLoop ents ([], [])
  let orgs := addProviderMatches text acc.2
  { dates := sortDatesDesc dates
    names := namesSecondPass acc.1
    organizations := organizationsFilter orgs }

/-! ## Filesystem model and `PDFManager` state -/

/-- Filesystem model: an association of paths to the text that PyMuPDF
extraction (`extract_text_from_pdf`, first 3 pages) yields for them. -/
abbrev FS := List (PyStr × PyStr)

/-- `os.path.exists`. -/
def fsExists (fs : FS) (p : PyStr) : Bool := fs.any (fun e => e.1 = p)

/-- `extract_text_from_pdf(path, max_pages=3)`: the stored text, or `""`
on any extraction failure (missing file / exception). -/
def extract_text_from_pdf (fs : FS) (p : PyStr) : PyStr :=
  ((fs.find? (fun e => e.1 = p)).map (·.2)).getD []

/-- `os.rename(old, new)`: move the entry (the caller has already ruled
out an existing distinct destination). -/
def fsRename (fs : FS) (old new : PyStr) : FS :=
  fs.map (fun e => (if e.1 = old then new else e.1, e.2))

/-- `analyze_pdf_content` (line 499): empty extracted text short-circuits
to an all-empty result. -/
def analyze_pdf_content (recognizer : Option Recognizer) (fs : FS) (path : PyStr) : Analysis :=
  let text := extract_text_from_pdf fs path
  if text = [] then { dates := [], names := [], organizations := [] }
  else analyzeText recognizer text

/-- The in-memory references held by `PDFManager`: `loaded_pdfs`,
`pdf_pages` (`(pdf_index, page_number, pdf_path)` tuples) and
`current_preview_pdf`. -/
structure ManagerState where
  loaded_pdfs : List PyStr
  pdf_pages : List (Nat × Nat × PyStr)
  current_preview_pdf : Option PyStr
  deriving Repr, DecidableEq

/-! ## `generate_filename_from_content` (lines 670-731) -/

/-- The punctuation class removed from components
(`re.sub(r'[?&#@!$%^*+=\[\]{}()<>:;"\x27,./\x5c|\x60~]', '', s)`). -/
def punctSet : List Char :=
  ['?', '&', '#', '@', '!', '$', '%', '^', '*', '+', '=', '[', ']', '{',
   '}', '(', ')', '<', '>', ':', ';', '"', Char.ofNat 39, ',', '.', '/',
   '\\', '|', Char.ofNat 96, '~']

/-- Whitespace collapse, punctuation removal, strip, spaces to
underscores — applied to the organization and name components. -/
def sanitizeComponent (s : PyStr) : PyStr :=
  let s1 := collapseWs s
  let s2 := s1.filter (fun c => ¬ punctSet.contains c)
  replaceChar ' ' '_' (pyStrip s2)

/-- Filesystem-reserved characters stripped from the final name
(`re.sub(r'[<>:"/\x5c|?*]', '', name)`). -/
def reservedSet : List Char :=
  ['<', '>', ':', '"', '/', '\\', '|', '?', '*']

def generate_filename_from_content (analysis : Analysis) (original_name : PyStr) : PyStr :=
  let parts1 : List PyStr :=
    match analysis.organizations with
    | org :: _ => [sanitizeComponent org]
    | [] => []
  let person_part : Option PyStr :=
    match analysis.names with
    | name :: _ =>
      let n := sanitizeComponent name
      let first_name := if containsSub [ '_' ] n then n.takeWhile (· ≠ '_') else n
      some (pys "for_" ++ first_name)
    | [] => none
  let parts2 :=
    match person_part with
    | some pp => if parts1 ≠ [] then parts1 ++ [pp] else parts1 ++ [removeSub (pys "for_") pp]
    | none => parts1
  let parts3 :=
    match analysis.dates with
    | d :: _ => parts2 ++ [d]
    | [] => parts2
  let suggested :=
    if parts3 ≠ [] then List.intercalate (pys "-") parts3 ++ pys ".pdf"
    else pys "renamed_" ++ original_name
  suggested.filter (fun c => ¬ reservedSet.contains c)

/-! ## `rename_pdf_from_content` (lines 733-797) -/

/-- `os.path.basename` (posix): the part after the last slash. -/
def basenameP (p : PyStr) : PyStr := (p.reverse.takeWhile (· ≠ '/')).reverse

/-- `os.path.dirname` (posix): everything up to the last slash, with
trailing slashes stripped unless the result is all slashes. -/
def dirnameP (p : PyStr) : PyStr :=
  let head := (p.reverse.dropWhile (· ≠ '/')).reverse
  if head.all (· = '/') then head
  else (head.reverse.dropWhile (· = '/')).reverse

/-- `os.path.join` (posix) for two components. -/
def joinP (d n : PyStr) : PyStr :=
  if startsWithL (pys "/") n then n
  else if d = [] ∨ d.getLast? = some '/' then d ++ n
  else d ++ '/' :: n

/-- The analysis dict as returned by `rename_pdf_from_content`:
`analyze_pdf_content`'s result with `suggested_name` filled in. -/
def analysisWithName (recognizer : Option Recognizer) (fs : FS) (path : PyStr) : Analysis :=
  let a := analyze_pdf_content recognizer fs path
  { a with suggested_name := some (generate_filename_from_content a (basenameP path)) }

/-- `final_name = new_name if new_name else suggested_name` (line 765);
note Python truthiness: an empty custom name also falls back to the
suggestion. -/
def renameFinalName (recognizer : Option Recognizer) (fs : FS) (path : PyStr)
    (new_name : Option PyStr) : PyStr :=
  let suggested := generate_filename_from_content
    (analyze_pdf_content recognizer fs path) (basenameP path)
  match new_name with
  | some n => if n = [] then suggested else n
  | none => suggested

/-- `new_path = os.path.join(os.path.dirname(pdf_path), final_name)`. -/
def renameNewPath (recognizer : Option Recognizer) (fs : FS) (path : PyStr)
    (new_name : Option PyStr) : PyStr :=
  joinP (dirnameP path) (renameFinalName recognizer fs path new_name)

/-- The reference updates after a successful `os.rename` (lines 779-790):
the first `loaded_pdfs` entry equal to the old path is overwritten
(`list.index` + assignment), every `pdf_pages` tuple is rewritten, and the
preview pointer is moved if it referenced the old path. -/
def updateRefs (st : ManagerState) (old new : PyStr) : ManagerState :=
  { loaded_pdfs :=
      if st.loaded_pdfs.contains old then
        st.loaded_pdfs.set (st.loaded_pdfs.findIdx (· = old)) new
      else st.loaded_pdfs
    pdf_pages := st.pdf_pages.map (fun t => (t.1, t.2.1, if t.2.2 = old then new else t.2.2))
    current_preview_pdf :=
      if st.current_preview_pdf = some old then some new
      else st.current_preview_pdf }

/-- `rename_pdf_from_content(pdf_path, new_name, dry_run)`.  `pymupdf`
models the module-level `PYMUPDF_AVAILABLE` flag; `fsErr = some msg`
models `os.rename` raising an `Exception` with message `msg` (the
`except` branch), `none` a successful rename syscall.  Returns the
`(success, message, analysis)` triple together with the filesystem and
manager state after the call. -/
def rename_pdf_from_content (pymupdf : Bool) (recognizer : Option Recognizer)
    (fsErr : Option PyStr) (fs : FS) (st : ManagerState) (pdf_path : PyStr)
    (new_name : Option PyStr) (dry_run : Bool) :
    (Bool × PyStr × Option Analysis) × FS × ManagerState :=
  if ¬ pymupdf then ((false, pys "PyMuPDF library not available", none), fs, st)
  else if ¬ fsExists fs pdf_path then
    ((false, pys "File not found: " ++ pdf_path, none), fs, st)
  else
    let analysisS := analysisWithName recognizer fs pdf_path
    let suggested := analysisS.suggested_name.getD []
    if dry_run then ((true, pys "Suggested name: " ++ suggested, some analysisS), fs, st)
    else
      let final_name := renameFinalName recognizer fs pdf_path new_name
      let new_path := renameNewPath recognizer fs pdf_path new_name
      if fsExists fs new_path ∧ new_path ≠ pdf_path then
        ((false, pys "File already exists: " ++ final_name, some analysisS), fs, st)
      else
        match fsErr with
        | some e => ((false, pys "Error renaming file: " ++ e, some analysisS), fs, st)
        | none =>
          ((true, pys "Successfully renamed to: " ++ final_name, some analysisS),
           fsRename fs pdf_path new_path, updateRefs st pdf_path new_path)

/-- Filesystem fixture for the collision scenario: the source document and
an occupant of the suggested destination name. -/
def fsC4 : FS := [(pys "docs/a.pdf", []), (pys "docs/renamed_a.pdf", [])]

/-- Filesystem fixture for the successful-rename scenario. -/
def fsC5 : FS := [(pys "docs/a.pdf", [])]

/-- Manager-state fixture: one loaded document, one page tuple and a
preview pointer, all referencing `docs/a.pdf`. -/
def stC45 : ManagerState :=
  { loaded_pdfs := [pys "docs/a.pdf"], pdf_pages := [(0, 0, pys "docs/a.pdf")],
    current_preview_pdf := some (pys "docs/a.pdf") }

/-- Each step of a deduplicating accumulator fold either keeps the
accumulator or appends one element that was not yet present. -/
def DedupStep {β : Type} (step : List PyStr → β → List PyStr) : Prop :=
  ∀ acc a, step acc a = acc ∨ ∃ d, d ∉ acc ∧ step acc a = acc ++ [d]

/-- The repetition test as the claim (and §4.4 of the spec) words it:
"after stripping all non-alphanumeric characters from it, the most
frequent character (case-insensitive) occurs in more than 40% of the
positions of the cleaned string".  Stated from the spec's words for
comparison with the source's `charRepetitionHit`, which strips only
underscores, hyphens and spaces. -/
def charRepetitionSpecClaim (org : PyStr) : Bool :=
  let cleaned := org.filter isAlnumChar
  let lc := lowerStr cleaned
  let maxCount := (lc.map (fun c => countChar c lc)).foldl max 0
  decide (cleaned.length ≠ 0) && decide (2 * cleaned.length < 5 * maxCount)

/-! ## Helper lemmas -/

theorem charLtTrichotomy (a b : Char) : a < b ∨ a = b ∨ b < a := by
  rcases Nat.lt_trichotomy a.toNat b.toNat with h | h | h
  · exact Or.inl (Char.lt_def.mpr h)
  · exact Or.inr (Or.inl (Char.eq_of_val_eq (UInt32.toNat.inj h)))
  · exact Or.inr (Or.inr (Char.lt_def.mpr h))

theorem strLe_total : ∀ a b : PyStr, strLe a b = true ∨ strLe b a = true
  | [], _ => Or.inl rfl
  | _ :: _, [] => Or.inr rfl
  | a :: as, b :: bs => by
    rcases charLtTrichotomy a b with h | h | h
    · exact Or.inl (by simp [strLe, h])
    · subst h
      rcases strLe_total as bs with ih | ih
      · exact Or.inl (by simp [strLe, lt_irrefl, ih])
      · exact Or.inr (by simp [strLe, lt_irrefl, ih])
    · exact Or.inr (by simp [strLe, h])

theorem strLe_trans : ∀ a b c : PyStr, strLe a b = true → strLe b c = true → strLe a c = true
  | [], _, _, _, _ => rfl
  | _ :: _, [], _, h, _ => by simp [strLe] at h
  | _ :: _, _ :: _, [], _, h => by simp [strLe] at h
  | a :: as, b :: bs, c :: cs, h1, h2 => by
    simp only [strLe] at h1 h2 ⊢
    split at h1
    · rename_i hab
      split at h2
      · rename_i hbc
        simp [lt_trans hab hbc]
      · split at h2
        · exact absurd h2 (by simp)
        · rename_i hbc hcb
          have hbceq : b = c := by
            rcases charLtTrichotomy b c with h | h | h
            · exact absurd h hbc
            · exact h
            · exact absurd h hcb
          subst hbceq
          simp [hab]
    · split at h1
      · exact absurd h1 (by simp)
      · rename_i hab hba
        have habeq : a = b := by
          rcases charLtTrichotomy a b with h | h | h
          · exact absurd h hab
          · exact h
          · exact absurd h hba
        subst habeq
        split at h2
        · rename_i hac
          simp [hac]
        · split at h2
          · exact absurd h2 (by simp)
          · rename_i hac hca
            simp only [if_neg hac, if_neg hca]
            exact strLe_trans as bs cs h1 h2

theorem mem_insertLe (le : PyStr → PyStr → Bool) (x a : PyStr) :
    ∀ l : List PyStr, a ∈ insertLe le x l ↔ a = x ∨ a ∈ l
  | [] => by simp [insertLe]
  | y :: ys => by
    simp only [insertLe]
    split
    · simp [List.mem_cons]
    · rw [List.mem_cons, mem_insertLe le x a ys, List.mem_cons]
      tauto

theorem perm_insertLe (le : PyStr → PyStr → Bool) (x : PyStr) :
    ∀ l : List PyStr, List.Perm (insertLe le x l) (x :: l)
  | [] => by simp [insertLe]
  | y :: ys => by
    simp only [insertLe]
    split
    · exact List.Perm.refl _
    · exact ((perm_insertLe le x ys).cons y).trans (List.Perm.swap x y ys)

theorem perm_insertionSort (le : PyStr → PyStr → Bool) :
    ∀ l : List PyStr, List.Perm (insertionSort le l) l
  | [] => List.Perm.refl _
  | x :: xs =>
    (perm_insertLe le x (insertionSort le xs)).trans ((perm_insertionSort le xs).cons x)

theorem pairwise_insertLe (le : PyStr → PyStr → Bool)
    (htotal : ∀ a b, le a b = true ∨ le b a = true)
    (htrans : ∀ a b c, le a b = true → le b c = true → le a c = true) (x : PyStr) :
    ∀ l : List PyStr, l.Pairwise (fun a b => le a b = true) →
      (insertLe le x l).Pairwise (fun a b => le a b = true)
  | [], _ => by simp [insertLe]
  | y :: ys, h => by
    rcases List.pairwise_cons.mp h with ⟨hy, hys⟩
    simp only [insertLe]
    split
    · rename_i hxy
      refine List.pairwise_cons.mpr ⟨?_, h⟩
      intro b hb
      rcases List.mem_cons.mp hb with rfl | hb
      · exact hxy
      · exact htrans x y b hxy (hy b hb)
    · rename_i hxy
      have hyx : le y x = true := by
        rcases htotal x y with h1 | h1
        · exact absurd h1 hxy
        · exact h1
      refine List.pairwise_cons.mpr ⟨?_, pairwise_insertLe le htotal htrans x ys hys⟩
      intro b hb
      rcases (mem_insertLe le x b ys).mp hb with rfl | hb
      · exact hyx
      · exact hy b hb

theorem pairwise_insertionSort (le : PyStr → PyStr → Bool)
    (htotal : ∀ a b, le a b = true ∨ le b a = true)
    (htrans : ∀ a b c, le a b = true → le b c = true → le a c = true) :
    ∀ l : List PyStr, (insertionSort le l).Pairwise (fun a b => le a b = true)
  | [] => List.Pairwise.nil
  | x :: xs =>
    pairwise_insertLe le htotal htrans x (insertionSort le xs)
      (pairwise_insertionSort le htotal htrans xs)

theorem foldl_dedup_nodup {β : Type} (step : List PyStr → β → List PyStr)
    (H : DedupStep step) :
    ∀ (l : List β) (acc : List PyStr), acc.Nodup → (l.foldl step acc).Nodup
  | [], _, h => h
  | a :: l, acc, h => by
    rcases H acc a with h1 | ⟨d, hd, h1⟩
    · rw [List.foldl_cons, h1]
      exact foldl_dedup_nodup step H l acc h
    · rw [List.foldl_cons, h1]
      refine foldl_dedup_nodup step H l (acc ++ [d]) ?_
      simp [List.nodup_append, h, hd]

theorem startsWithL_iff : ∀ p s : PyStr, startsWithL p s = true ↔ ∃ t, p ++ t = s
  | [], s => by simp [startsWithL]
  | p :: ps, [] => by simp [startsWithL]
  | p :: ps, c :: cs => by
    simp only [startsWithL, Bool.and_eq_true, decide_eq_true_eq]
    rw [startsWithL_iff ps cs]
    constructor
    · rintro ⟨rfl, t, rfl⟩
      exact ⟨t, rfl⟩
    · rintro ⟨t, h⟩
      rw [List.cons_append] at h
      injection h with h1 h2
      exact ⟨h1, t, h2⟩

theorem containsSub_iff : ∀ p s : PyStr, containsSub p s = true ↔ ∃ u v, u ++ p ++ v = s
  | p, [] => by
    simp only [containsSub, List.isEmpty_iff]
    constructor
    · rintro rfl
      exact ⟨[], [], rfl⟩
    · rintro ⟨u, v, h⟩
      simpa using List.append_eq_nil.mp ((List.append_eq_nil.mp h).1) |>.2
  | p, c :: cs => by
    simp only [containsSub, Bool.or_eq_true]
    rw [startsWithL_iff, containsSub_iff p cs]
    constructor
    · rintro (⟨t, ht⟩ | ⟨u, v, huv⟩)
      · exact ⟨[], t, by simpa using ht⟩
      · exact ⟨c :: u, v, by rw [List.cons_append, List.cons_append, huv]⟩
    · rintro ⟨u, v, h⟩
      match u, h with
      | [], h => exact Or.inl ⟨v, by simpa using h⟩
      | u0 :: us, h =>
        rw [List.cons_append, List.cons_append] at h
        injection h with h1 h2
        exact Or.inr ⟨us, v, h2⟩

theorem containsSub_refl (p : PyStr) : containsSub p p = true :=
  (containsSub_iff p p).mpr ⟨[], [], by simp⟩

theorem containsSub_trans {a b c : PyStr} (h1 : containsSub a b = true)
    (h2 : containsSub b c = true) : containsSub a c = true := by
  rcases (containsSub_iff a b).mp h1 with ⟨u1, v1, hb⟩
  rcases (containsSub_iff b c).mp h2 with ⟨u2, v2, hc⟩
  refine (containsSub_iff a c).mpr ⟨u2 ++ u1, v1 ++ v2, ?_⟩
  rw [← hc, ← hb]
  simp

theorem sub_of_matchSecond {name al : PyStr} (h : nameMatchesSecond name al = true) :
    containsSub (lowerStr al) (lowerStr name) = true := by
  rcases Bool.or_eq_true _ _ |>.mp h with h1 | h1
  · rw [of_decide_eq_true h1]
    exact containsSub_refl _
  · exact h1

theorem markSub_of_mcSub {name : PyStr}
    (h : containsSub (lowerStr (pys "Mark & Christine")) (lowerStr name) = true) :
    containsSub (lowerStr (pys "Mark")) (lowerStr name) = true :=
  containsSub_trans (by decide) h

/-- The first-pass whitelist search can never return the entry
`"Mark & Christine"`: any span it matches also matches the earlier entry
`"Mark"`, which `find?` returns first. -/
theorem findFirst_ne_mc (name : PyStr) :
    allowed_names.find? (nameMatchesFirst name) ≠ some (pys "Mark & Christine") := by
  intro h
  have hpred : nameMatchesFirst name (pys "Mark & Christine") = true := List.find?_some h
  have hmark : nameMatchesFirst name (pys "Mark") = true := markSub_of_mcSub hpred
  rw [show allowed_names = pys "Mark" ::
      [pys "Christine", pys "Mark & Christine", pys "Mackenzie", pys "Morgan"] from rfl] at h
  rw [List.find?_cons_of_pos _ hmark] at h
  exact absurd h (by decide)

/-- Same for the re-filter's search. -/
theorem findSecond_ne_mc (name : PyStr) :
    allowed_names.find? (nameMatchesSecond name) ≠ some (pys "Mark & Christine") := by
  intro h
  have hpred : nameMatchesSecond name (pys "Mark & Christine") = true := List.find?_some h
  have hmark : nameMatchesSecond name (pys "Mark") = true := by
    unfold nameMatchesSecond
    rw [markSub_of_mcSub (sub_of_matchSecond hpred)]
    simp
  rw [show allowed_names = pys "Mark" ::
      [pys "Christine", pys "Mark & Christine", pys "Mackenzie", pys "Morgan"] from rfl] at h
  rw [List.find?_cons_of_pos _ hmark] at h
  exact absurd h (by decide)

theorem spStep_of_find_none {acc : List PyStr} {a : PyStr} (hf : allowed_names.find? (nameMatchesSecond a) = none) :
    spStep acc a = acc := by
  unfold spStep; rw [hf]

theorem spStep_of_find_some {acc : List PyStr} {a al : PyStr}
    (hf : allowed_names.find? (nameMatchesSecond a) = some al) :
    spStep acc a = if acc.contains al then acc else acc ++ [al] := by
  unfold spStep; rw [hf]

theorem spStep_dedup : DedupStep spStep := by
  intro acc a
  cases hf : allowed_names.find? (nameMatchesSecond a) with
  | none => exact Or.inl (spStep_of_find_none hf)
  | some al =>
    rw [spStep_of_find_some hf]
    by_cases hc : acc.contains al = true
    · exact Or.inl (if_pos hc)
    · exact Or.inr ⟨al, by simpa using hc, if_neg hc⟩

/-- Every element produced by the re-filter fold is a whitelist entry other
than `"Mark & Christine"` whose lowercase form occurs in some input
name (unless it was already in the accumulator). -/
theorem spFold_mem : ∀ (l : List PyStr) (acc : List PyStr) (y : PyStr),
    y ∈ l.foldl spStep acc →
    y ∈ acc ∨ (y ∈ allowed_names ∧ y ≠ pys "Mark & Christine" ∧
               ∃ x ∈ l, containsSub (lowerStr y) (lowerStr x) = true)
  | [], acc, y, h => Or.inl h
  | x :: l, acc, y, h => by
    rw [List.foldl_cons] at h
    rcases spFold_mem l (spStep acc x) y h with h1 | ⟨h1, h2, x', hx', h3⟩
    · cases hf : allowed_names.find? (nameMatchesSecond x) with
      | none =>
        rw [spStep_of_find_none hf] at h1
        exact Or.inl h1
      | some al =>
        rw [spStep_of_find_some hf] at h1
        by_cases hc : acc.contains al = true
        · rw [if_pos hc] at h1
          exact Or.inl h1
        · rw [if_neg hc] at h1
          rcases List.mem_append.mp h1 with h2 | h2
          · exact Or.inl h2
          · have hy : y = al := by simpa using h2
            subst hy
            refine Or.inr ⟨List.mem_of_find?_eq_some hf, ?_, x, List.mem_cons_self x l, ?_⟩
            · intro hmc
              exact findSecond_ne_mc x (hmc ▸ hf)
            · exact sub_of_matchSecond (List.find?_some hf)
    · exact Or.inr ⟨h1, h2, x', List.mem_cons_of_mem x hx', h3⟩

/-- The PERSON step of the ent loop: either the accumulator is unchanged
(up to membership) or the added element is the first-pass search result. -/
theorem entNamesStep (names : List PyStr) (name : PyStr) (y : PyStr)
    (h : y ∈ (if name ≠ [] then
            match allowed_names.find? (nameMatchesFirst name) with
            | some al => if names.contains al then names else names ++ [al]
            | none => names
          else names)) :
    y ∈ names ∨ allowed_names.find? (nameMatchesFirst name) = some y := by
  split at h
  · split at h
    · rename_i al hf
      split at h
      · exact Or.inl h
      · rcases List.mem_append.mp h with h2 | h2
        · exact Or.inl h2
        · have hy : y = al := by simpa using h2
          subst hy
          exact Or.inr hf
    · exact Or.inl h
  · exact Or.inl h

/-- Elements added to the name accumulator by the ent loop come from the
first-pass whitelist search on a stripped PERSON span. -/
theorem entLoop_names_origin : ∀ (ents : List (PyStr × PyStr)) (names orgs : List PyStr)
    (y : PyStr), y ∈ (entLoop ents (names, orgs)).1 →
    y ∈ names ∨ ∃ e ∈ ents, e.2 = pys "PERSON" ∧
      allowed_names.find? (nameMatchesFirst (pyStrip e.1)) = some y
  | [], names, orgs, y, h => Or.inl h
  | (t, lab) :: rest, names, orgs, y, h => by
    rw [entLoop] at h
    by_cases hp : lab = pys "PERSON"
    · rw [if_pos hp] at h
      rcases entLoop_names_origin rest _ orgs y h with h1 | ⟨e, he, h2, h3⟩
      · rcases entNamesStep names (pyStrip t) y h1 with h2 | h2
        · exact Or.inl h2
        · exact Or.inr ⟨(t, lab), List.mem_cons_self _ _, hp, h2⟩
      · exact Or.inr ⟨e, List.mem_cons_of_mem _ he, h2, h3⟩
    · rw [if_neg hp] at h
      by_cases ho : lab = pys "ORG" ∨ lab = pys "PRODUCT" ∨ lab = pys "FAC"
      · rw [if_pos ho] at h
        rcases entLoop_names_origin rest names _ y h with h1 | ⟨e, he, h2, h3⟩
        · exact Or.inl h1
        · exact Or.inr ⟨e, List.mem_cons_of_mem _ he, h2, h3⟩
      · rw [if_neg ho] at h
        rcases entLoop_names_origin rest names orgs y h with h1 | ⟨e, he, h2, h3⟩
        · exact Or.inl h1
        · exact Or.inr ⟨e, List.mem_cons_of_mem _ he, h2, h3⟩

theorem map_eq_self_of_not_mem {t : List PyStr} {old nw : PyStr} (h : old ∉ t) :
    t.map (fun p => if p = old then nw else p) = t := by
  have hid : ∀ a ∈ t, (if a = old then nw else a) = id a := by
    intro a ha
    rw [if_neg, id]
    intro he
    subst he
    exact h ha
  rw [List.map_congr_left hid, List.map_id]

/-- With at most one occurrence of `old`, the source's
`loaded_pdfs[loaded_pdfs.index(old)] = new` (guarded by `old in loaded_pdfs`)
is a pointwise replacement. -/
theorem updateFirst_eq_map : ∀ (l : List PyStr) (old nw : PyStr), l.count old ≤ 1 →
    (if l.contains old then l.set (l.findIdx (· = old)) nw else l) =
      l.map (fun p => if p = old then nw else p)
  | [], old, nw, _ => by simp
  | a :: t, old, nw, hcount => by
    by_cases ha : a = old
    · subst ha
      have hc : (a :: t).contains a = true := by simp
      rw [if_pos hc]
      have hidx : (a :: t).findIdx (· = a) = 0 := by simp [List.findIdx_cons]
      rw [hidx, List.set_cons_zero]
      have hnotin : a ∉ t := by
        rw [List.count_cons_self] at hcount
        exact List.count_eq_zero.mp (by omega)
      rw [List.map_cons, if_pos rfl, map_eq_self_of_not_mem hnotin]
    · have hcount' : t.count old ≤ 1 := by
        rwa [List.count_cons_of_ne (fun he => ha he.symm)] at hcount
      have hcontains : (a :: t).contains old = t.contains old := by
        have hbeq : (a == old) = false := beq_false_of_ne ha
        simp [List.contains_cons, hbeq]
        intro he
        exact absurd he.symm ha
      have hidx : (a :: t).findIdx (· = old) = t.findIdx (· = old) + 1 := by
        simp [List.findIdx_cons, ha]
      rw [List.map_cons, if_neg ha]
      by_cases hc : t.contains old = true
      · rw [hcontains, if_pos hc, hidx, List.set_cons_succ]
        have := updateFirst_eq_map t old nw hcount'
        rw [if_pos hc] at this
        rw [this]
      · rw [hcontains, if_neg hc]
        have hnotin : old ∉ t := by simpa using hc
        rw [map_eq_self_of_not_mem hnotin]

/-! ## Claim theorems -/

/-- C1: the filename synthesizer composes
`[Organization]-[for_FirstName]-[MostRecentDate].pdf` when an organization
is present, `[FirstName]-[MostRecentDate].pdf` when only a name is
present, and falls back to prefixing the original filename with
`renamed_` when no parts were generated: for
`organizations=["Verizon"], names=["Mark"], dates=["2024-03-03"]` the
suggestion is `"Verizon-for_Mark-2024-03-03.pdf"`; with only the name and
date it is `"Mark-2024-03-03.pdf"`; with all three lists empty it is
`"renamed_"` followed by the original filename. -/
theorem C1_filename_composition :
    generate_filename_from_content
        { dates := [pys "2024-03-03"], names := [pys "Mark"],
          organizations := [pys "Verizon"] } (pys "scan001.pdf") =
      pys "Verizon-for_Mark-2024-03-03.pdf"
    ∧ generate_filename_from_content
        { dates := [pys "2024-03-03"], names := [pys "Mark"],
          organizations := [] } (pys "scan001.pdf") =
      pys "Mark-2024-03-03.pdf"
    ∧ generate_filename_from_content
        { dates := [], names := [], organizations := [] } (pys "scan001.pdf") =
      pys "renamed_scan001.pdf" := by
  refine ⟨by decide, by decide, by decide⟩

/-- C10: when the PDF library is unavailable, `rename_pdf_from_content`
returns failure with message `"PyMuPDF library not available"` and an
empty analysis dict, for every filesystem, state, path, optional new name
and mode, before any analysis and with no mutation. -/
theorem C10_pymupdf_unavailable_hard_failure
    (recognizer : Option Recognizer) (fsErr : Option PyStr) (fs : FS)
    (st : ManagerState) (pdf_path : PyStr) (new_name : Option PyStr)
    (dry_run : Bool) :
    rename_pdf_from_content false recognizer fsErr fs st pdf_path new_name dry_run =
      ((false, pys "PyMuPDF library not available", none), fs, st) := rfl

/-- C9: the provider fallback records the matched substring exactly as it
appears in the text, deduplicating by exact string equality, so a text
containing standalone `"Verizon"` and `"verizon"` produces two distinct
entries in the organization candidate pool — and both survive into the
final analysis. -/
theorem C9_provider_matches_case_preserved :
    addProviderMatches (pys "Verizon bill for verizon") [] =
      [pys "Verizon", pys "verizon"]
    ∧ (analyzeText none (pys "Verizon bill for verizon")).organizations =
      [pys "Verizon", pys "verizon"] := by
  refine ⟨by decide, by decide⟩

/-- C7 counterexample: the claim says the organization validity filter
rejects the address candidate `"123 W Main St"`, but the filter keeps it:
the address regex requires either a full street word (`STREET`, …) or a
dotted abbreviation (`ST.`), and the digits-plus-street-word heuristic
only knows `SUMMIT`, `STREET`, `AVENUE`, `ROAD`, so the bare abbreviation
`"St"` matches nothing. -/
theorem C7_counterexample_address_not_rejected :
    organizationsFilter [pys "123 W Main St"] = [pys "123 W Main St"] := by
  decide

/-- C7 amended: the filter rejects the OCR-gibberish candidate
`"I_l_l_l_a_l_l_l_e"` and rejects the address candidate written with a
full street word, `"123 W Main Street"`, while `"Verizon"` and
`"Pacific Gas & Electric"` both survive; the bare-abbreviation address
`"123 W Main St"` is not caught. -/
theorem C7_filter_examples_amended :
    organizationsFilter
        [pys "I_l_l_l_a_l_l_l_e", pys "123 W Main Street", pys "Verizon",
         pys "Pacific Gas & Electric"] =
      [pys "Verizon", pys "Pacific Gas & Electric"] := by
  decide

/-- C6 counterexample: for `"aaa.b,c;d"` the claim's condition holds
(stripping all non-alphanumerics leaves `"aaabcd"`, where `a` fills 50% >
40% of the positions), yet the filter keeps the candidate: the source
strips only `_`, `-` and spaces, so the punctuation dilutes the ratio to
3/9 ≤ 40%. -/
theorem C6_counterexample_repetition_filter :
    charRepetitionSpecClaim (pys "aaa.b,c;d") = true
    ∧ organizationsFilter [pys "aaa.b,c;d"] = [pys "aaa.b,c;d"] := by
  refine ⟨by decide, by decide⟩

/-- C6 amended: the validity filter rejects a candidate whenever, after
removing underscore, hyphen and space characters (punctuation retained),
the most frequent remaining character (case-insensitive) occurs in more
than 40% of the remaining positions. -/
theorem C6_repetition_filter_amended (orgs : List PyStr) (org : PyStr)
    (h : charRepetitionHit org = true) :
    org ∉ organizationsFilter orgs := by
  intro hmem
  have hkeep := List.of_mem_filter hmem
  simp [isInvalidOrg, h] at hkeep

/-- Concrete instance of the amended C6: `"aaaab"` trips the repetition
rule and is filtered out. -/
theorem C6_repetition_filter_amended_witness :
    pys "aaaab" ∉ organizationsFilter [pys "aaaab"] :=
  C6_repetition_filter_amended [pys "aaaab"] (pys "aaaab") (by decide)

theorem collectDates_nodup (text : PyStr) : (collectDates text).Nodup := by
  refine foldl_dedup_nodup _ ?_ (dateMatches text) [] List.nodup_nil
  intro acc m
  dsimp only
  cases hp : parseDateModel m with
  | none => exact Or.inl rfl
  | some d =>
    by_cases hc : acc.contains d = true
    · exact Or.inl (if_pos hc)
    · exact Or.inr ⟨d, by simpa using hc, if_neg hc⟩

theorem sortDatesDesc_nodup {l : List PyStr} (h : l.Nodup) : (sortDatesDesc l).Nodup :=
  ((perm_insertionSort _ l).nodup_iff).mpr h

theorem sortDatesDesc_sorted (l : List PyStr) :
    (sortDatesDesc l).Pairwise (fun a b => strLe b a = true) := by
  refine pairwise_insertionSort _ ?_ ?_ l
  · intro a b
    rcases strLe_total b a with h | h
    · exact Or.inl h
    · exact Or.inr h
  · intro a b c h1 h2
    exact strLe_trans c b a h2 h1

/-- C2: for every input, the dates list of the content analysis contains
each normalized `YYYY-MM-DD` string at most once (matches normalizing to
the same date are merged, unparsable matches dropped) and is sorted
descending lexicographically; in particular a document containing both
`"March 3, 2024"` and `"2024-03-03"` yields `dates == ["2024-03-03"]`. -/
theorem C2_dates_unique_sorted_descending :
    (∀ (recognizer : Option Recognizer) (fs : FS) (path : PyStr),
        (analyze_pdf_content recognizer fs path).dates.Nodup
        ∧ (analyze_pdf_content recognizer fs path).dates.Pairwise
            (fun a b => strLe b a = true))
    ∧ (analyze_pdf_content none
          [(pys "stmt.pdf", pys "Paid March 3, 2024 and 2024-03-03")]
          (pys "stmt.pdf")).dates = [pys "2024-03-03"] := by
  constructor
  · intro recognizer fs path
    unfold analyze_pdf_content
    by_cases h : extract_text_from_pdf fs path = []
    · rw [if_pos h]
      exact ⟨List.nodup_nil, List.Pairwise.nil⟩
    · rw [if_neg h]
      exact ⟨sortDatesDesc_nodup (collectDates_nodup _), sortDatesDesc_sorted _⟩
  · decide

/-- C3: whatever PERSON spans the recognizer emits, every name in the
output is a whitelist entry (canonical spelling), without duplicates, and
is only kept because its lowercase form is a substring of some PERSON
span's stripped lowercase text; a recognizer emitting only
`"John Smith"` yields an empty names list. -/
theorem C3_whitelist_closure (ents : List (PyStr × PyStr)) :
    (∀ n ∈ namesSecondPass (entLoop ents ([], [])).1, n ∈ allowed_names)
    ∧ (namesSecondPass (entLoop ents ([], [])).1).Nodup
    ∧ (∀ n ∈ namesSecondPass (entLoop ents ([], [])).1,
        ∃ e ∈ ents, e.2 = pys "PERSON" ∧
          containsSub (lowerStr n) (lowerStr (pyStrip e.1)) = true)
    ∧ namesSecondPass (entLoop [(pys "John Smith", pys "PERSON")] ([], [])).1 = [] := by
  refine ⟨?_, ?_, ?_, by decide⟩
  · intro n hn
    rcases spFold_mem _ [] n hn with h | ⟨h1, _, _⟩
    · exact absurd h (List.not_mem_nil n)
    · exact h1
  · exact foldl_dedup_nodup spStep spStep_dedup _ [] List.nodup_nil
  · intro n hn
    rcases spFold_mem _ [] n hn with h | ⟨_, _, x, hx, h3⟩
    · exact absurd h (List.not_mem_nil n)
    · rcases entLoop_names_origin ents [] [] x hx with h | ⟨e, he, hlab, hfind⟩
      · exact absurd h (List.not_mem_nil x)
      · have hx1 : nameMatchesFirst (pyStrip e.1) x = true := List.find?_some hfind
        have hx2 : containsSub (lowerStr x) (lowerStr (pyStrip e.1)) = true := hx1
        exact ⟨e, he, hlab, containsSub_trans h3 hx2⟩

/-- Concrete instance of C3: a recognizer emitting `"Mark Dweller"` as
PERSON yields the canonical `"Mark"`, which is a whitelist entry traced
to that span. -/
theorem C3_whitelist_closure_witness :
    pys "Mark" ∈ allowed_names
    ∧ ∃ e ∈ [(pys "Mark Dweller", pys "PERSON")], e.2 = pys "PERSON" ∧
        containsSub (lowerStr (pys "Mark")) (lowerStr (pyStrip e.1)) = true :=
  ⟨(C3_whitelist_closure [(pys "Mark Dweller", pys "PERSON")]).1 (pys "Mark") (by decide),
   (C3_whitelist_closure [(pys "Mark Dweller", pys "PERSON")]).2.2.1 (pys "Mark") (by decide)⟩

/-- C8: the whitelist entry `"Mark & Christine"` can never appear in the
names output — any span containing it also contains `"Mark"`, which the
first-match loop emits instead — so the output is always a subset of the
other four entries. -/
theorem C8_mark_and_christine_unreachable (ents : List (PyStr × PyStr)) :
    pys "Mark & Christine" ∉ namesSecondPass (entLoop ents ([], [])).1
    ∧ ∀ n ∈ namesSecondPass (entLoop ents ([], [])).1,
        n ∈ [pys "Mark", pys "Christine", pys "Mackenzie", pys "Morgan"] := by
  constructor
  · intro h
    rcases spFold_mem _ [] _ h with h1 | ⟨_, h2, _⟩
    · exact absurd h1 (List.not_mem_nil _)
    · exact h2 rfl
  · intro n hn
    rcases spFold_mem _ [] n hn with h1 | ⟨h1, h2, _⟩
    · exact absurd h1 (List.not_mem_nil n)
    · simp only [allowed_names, List.mem_cons, List.not_mem_nil, or_false] at h1
      rcases h1 with rfl | rfl | rfl | rfl | rfl
      · decide
      · decide
      · exact absurd rfl h2
      · decide
      · decide

/-- Concrete instance of C8: a PERSON span `"Morgan Dweller"` produces
`"Morgan"`, an element of the four-entry reachable set. -/
theorem C8_mark_and_christine_unreachable_witness :
    pys "Morgan" ∈ [pys "Mark", pys "Christine", pys "Mackenzie", pys "Morgan"] :=
  (C8_mark_and_christine_unreachable [(pys "Morgan Dweller", pys "PERSON")]).2
    (pys "Morgan") (by decide)

/-- C4: in apply mode, when a different file already occupies the
destination path, the rename returns a collision failure with the
already-computed analysis (suggested name included) and performs no
filesystem mutation and no reference update. -/
theorem C4_collision_no_mutation (recognizer : Option Recognizer) (fsErr : Option PyStr)
    (fs : FS) (st : ManagerState) (pdf_path : PyStr) (new_name : Option PyStr)
    (hsrc : fsExists fs pdf_path = true)
    (hdest : fsExists fs (renameNewPath recognizer fs pdf_path new_name) = true)
    (hne : renameNewPath recognizer fs pdf_path new_name ≠ pdf_path) :
    rename_pdf_from_content true recognizer fsErr fs st pdf_path new_name false =
      ((false,
        pys "File already exists: " ++ renameFinalName recognizer fs pdf_path new_name,
        some (analysisWithName recognizer fs pdf_path)), fs, st) := by
  unfold rename_pdf_from_content
  rw [if_neg (by simp), if_neg (by simp [hsrc]), if_neg (by simp),
    if_pos ⟨hdest, hne⟩]

/-- Concrete instance of C4: renaming `docs/a.pdf` when `docs/renamed_a.pdf`
(the suggestion for a document with no extractable facts) already exists
fails with a collision message and leaves filesystem and state untouched. -/
theorem C4_collision_no_mutation_witness :
    rename_pdf_from_content true none none fsC4 stC45 (pys "docs/a.pdf") none false =
      ((false,
        pys "File already exists: " ++ renameFinalName none fsC4 (pys "docs/a.pdf") none,
        some (analysisWithName none fsC4 (pys "docs/a.pdf"))),
       fsC4, stC45) :=
  C4_collision_no_mutation none none fsC4 stC45 (pys "docs/a.pdf") none
    (by decide) (by decide) (by decide)

/-- C5: after a successful apply-mode rename every internal reference to
the old path — the loaded-document list entry, every page-ordering tuple,
and the active-preview pointer — is rewritten to the new path, references
to other paths are unchanged, and afterwards no internal reference
mentions the old path.  (`loaded_pdfs` holds each path at most once; the
source updates the first occurrence.) -/
theorem C5_rename_updates_references (recognizer : Option Recognizer)
    (fs : FS) (st : ManagerState) (pdf_path : PyStr) (new_name : Option PyStr)
    (hsrc : fsExists fs pdf_path = true)
    (hdest : fsExists fs (renameNewPath recognizer fs pdf_path new_name) = false)
    (hcount : st.loaded_pdfs.count pdf_path ≤ 1) :
    rename_pdf_from_content true recognizer none fs st pdf_path new_name false =
      ((true,
        pys "Successfully renamed to: " ++ renameFinalName recognizer fs pdf_path new_name,
        some (analysisWithName recognizer fs pdf_path)),
       fsRename fs pdf_path (renameNewPath recognizer fs pdf_path new_name),
       { loaded_pdfs := st.loaded_pdfs.map
           (fun p => if p = pdf_path then renameNewPath recognizer fs pdf_path new_name else p)
         pdf_pages := st.pdf_pages.map
           (fun t => (t.1, t.2.1,
             if t.2.2 = pdf_path then renameNewPath recognizer fs pdf_path new_name else t.2.2))
         current_preview_pdf :=
           if st.current_preview_pdf = some pdf_path then
             some (renameNewPath recognizer fs pdf_path new_name)
           else st.current_preview_pdf })
    ∧ pdf_path ∉ st.loaded_pdfs.map
        (fun p => if p = pdf_path then renameNewPath recognizer fs pdf_path new_name else p)
    ∧ (∀ t ∈ st.pdf_pages.map
         (fun t => (t.1, t.2.1,
           if t.2.2 = pdf_path then renameNewPath recognizer fs pdf_path new_name else t.2.2)),
        t.2.2 ≠ pdf_path)
    ∧ (if st.current_preview_pdf = some pdf_path then
         some (renameNewPath recognizer fs pdf_path new_name)
       else st.current_preview_pdf) ≠ some pdf_path := by
  have hnewne : renameNewPath recognizer fs pdf_path new_name ≠ pdf_path := by
    intro he
    rw [he, hsrc] at hdest
    exact absurd hdest (by simp)
  refine ⟨?_, ?_, ?_, ?_⟩
  · unfold rename_pdf_from_content
    rw [if_neg (by simp), if_neg (by simp [hsrc]), if_neg (by simp),
      if_neg (fun hc => absurd hc.1 (by simp [hdest]))]
    unfold updateRefs
    rw [updateFirst_eq_map st.loaded_pdfs pdf_path
      (renameNewPath recognizer fs pdf_path new_name) hcount]
  · intro h
    rcases List.mem_map.mp h with ⟨p, hp, hfp⟩
    by_cases hpe : p = pdf_path
    · rw [if_pos hpe] at hfp
      exact hnewne hfp
    · rw [if_neg hpe] at hfp
      exact hpe hfp
  · intro t ht hc
    rcases List.mem_map.mp ht with ⟨u, hu, hfu⟩
    obtain ⟨u1, u2, u3⟩ := u
    rw [← hfu] at hc
    dsimp only at hc
    by_cases hpe : u3 = pdf_path
    · rw [if_pos hpe] at hc
      exact hnewne hc
    · rw [if_neg hpe] at hc
      exact hpe hc
  · split
    · intro hc
      injection hc with hc
      exact hnewne hc
    · rename_i hne
      intro hc
      exact hne hc

/-- Concrete instance of C5: renaming `docs/a.pdf` to `b.pdf` succeeds and
rewrites the loaded-list entry, the page tuple and the preview pointer;
none of them mentions the old path afterwards. -/
theorem C5_rename_updates_references_witness :
    rename_pdf_from_content true none none fsC5 stC45 (pys "docs/a.pdf")
        (some (pys "b.pdf")) false =
      ((true,
        pys "Successfully renamed to: " ++
          renameFinalName none fsC5 (pys "docs/a.pdf") (some (pys "b.pdf")),
        some (analysisWithName none fsC5 (pys "docs/a.pdf"))),
       fsRename fsC5 (pys "docs/a.pdf")
         (renameNewPath none fsC5 (pys "docs/a.pdf") (some (pys "b.pdf"))),
       { loaded_pdfs := stC45.loaded_pdfs.map
           (fun p => if p = pys "docs/a.pdf" then
             renameNewPath none fsC5 (pys "docs/a.pdf") (some (pys "b.pdf")) else p)
         pdf_pages := stC45.pdf_pages.map
           (fun t => (t.1, t.2.1,
             if t.2.2 = pys "docs/a.pdf" then
               renameNewPath none fsC5 (pys "docs/a.pdf") (some (pys "b.pdf")) else t.2.2))
         current_preview_pdf :=
           if stC45.current_preview_pdf = some (pys "docs/a.pdf") then
             some (renameNewPath none fsC5 (pys "docs/a.pdf") (some (pys "b.pdf")))
           else stC45.current_preview_pdf })
    ∧ pys "docs/a.pdf" ∉ stC45.loaded_pdfs.map
        (fun p => if p = pys "docs/a.pdf" then
          renameNewPath none fsC5 (pys "docs/a.pdf") (some (pys "b.pdf")) else p)
    ∧ (∀ t ∈ stC45.pdf_pages.map
         (fun t => (t.1, t.2.1,
           if t.2.2 = pys "docs/a.pdf" then
             renameNewPath none fsC5 (pys "docs/a.pdf") (some (pys "b.pdf")) else t.2.2)),
        t.2.2 ≠ pys "docs/a.pdf")
    ∧ (if stC45.current_preview_pdf = some (pys "docs/a.pdf") then
         some (renameNewPath none fsC5 (pys "docs/a.pdf") (some (pys "b.pdf")))
       else stC45.current_preview_pdf) ≠ some (pys "docs/a.pdf") :=
  C5_rename_updates_references none fsC5 stC45 (pys "docs/a.pdf") (some (pys "b.pdf"))
    (by decide) (by decide) (by decide)
